import Mathlib

/-!
Shallow embedding of scripts/odds_compact.py: market extraction, bookmaker
ranking, snapshot persistence and retention pruning.

Conventions used throughout:
- Python strings are Lean String; case-insensitive regexes work on the
  lowercased character list.
- Python regular expressions are translated into executable Bool functions on
  strings; the anchor for the end of a pattern is modelled as end-of-string.
- JSON odds values are records with the fields the script reads; a field that
  may be absent or null is an Option.
- Fallible Python code is modelled in Except: calling a non-callable object
  (a float where a predicate is expected) yields PyErr.typeError, and
  filesystem operations go through an explicit oracle.
-/

namespace OddsCompact

/-- Python exceptions the embedded code can raise. -/
inductive PyErr where
  | typeError
  deriving DecidableEq, Repr

/-- Operating-system errors surfaced by filesystem oracles. -/
inductive OsError where
  | ioError
  | permissionDenied
  | fileNotFound
  deriving DecidableEq, Repr

/-- A JSON-ish value stored in an emitted market record: null or a string. -/
inductive JVal where
  | null
  | str (s : String)
  deriving DecidableEq, Repr

/-- One emitted market record: an insertion-ordered dict of field / value. -/
abbrev MRecord : Type := List (String × JVal)

/-- One (label, price, line) triple offered by a bookmaker:
the "value", "odd" and "handicap" fields the script reads. -/
structure OutcomeValue where
  value : String
  odd : Option String
  handicap : Option String
  deriving DecidableEq, Repr

/-- One named bet of a bookmaker with its outcome values. -/
structure Bet where
  name : String
  values : List OutcomeValue
  deriving DecidableEq, Repr

/-- One bookmaker: its name and its list of bets. -/
structure Book where
  name : String
  bets : List Bet
  deriving DecidableEq, Repr

/-! ## String helpers (Python semantics) -/

/-- Python str truthiness for an optional string field: present and nonempty. -/
def truthyStr : Option String → Bool
  | none => false
  | some s => !s.isEmpty

/-- Characters matched by the regex class for whitespace. -/
def pyWs (c : Char) : Bool :=
  c == ' ' || c == '\t' || c == '\n' || c == '\r' || c == '\x0b' || c == '\x0c'

/-- Lowercased character list of a string (case-insensitive matching). -/
def lcList (s : String) : List Char :=
  s.toList.map Char.toLower

/-- Lowercased string, as Python str.lower on ASCII. -/
def lowerStr (s : String) : String :=
  String.mk (lcList s)

/-- Strip an expected literal from the front; none when it is not there. -/
def stripLit : List Char → List Char → Option (List Char)
  | [], s => some s
  | _ :: _, [] => none
  | c :: p, d :: s => if c == d then stripLit p s else none

/-- Chain step: strip a literal from the remainder of a partial match. -/
def thenLit (w : String) (r : Option (List Char)) : Option (List Char) :=
  r.bind (stripLit w.toList)

/-- Chain step: consume any run of whitespace. -/
def thenWs (r : Option (List Char)) : Option (List Char) :=
  r.map (fun l => l.dropWhile pyWs)

/-- A partial match that consumed the whole string. -/
def isFull : Option (List Char) → Bool
  | some [] => true
  | _ => false

/-- Substring test on character lists. -/
def containsL (p : List Char) (l : List Char) : Bool :=
  l.tails.any (fun t => (stripLit p t).isSome)

/-- Suffix test on strings (str.endswith). -/
def endsWithStr (s suf : String) : Bool :=
  (stripLit suf.toList.reverse s.toList.reverse).isSome

/-- Case-insensitive substring test on strings. -/
def containsCI (pat : String) (s : String) : Bool :=
  containsL (lcList pat) (lcList s)

/-! ## The five market-name rules (RX_* in the source) -/

/-- RX_MATCH_WINNER: whole name is "match winner", "1x2" or "win draw win"
(case-insensitive, optional whitespace at the gaps). -/
def rxMatchWinner (name : String) : Bool :=
  let l := lcList name
  isFull (thenLit "winner" (thenWs (thenLit "match" (some l)))) ||
  isFull (thenLit "1x2" (some l)) ||
  isFull (thenLit "win" (thenWs (thenLit "draw" (thenWs (thenLit "win" (some l))))))

/-- RX_OVER_UNDER: name contains "over/under" (with optional whitespace
around the slash) or contains "total". -/
def rxOverUnder (name : String) : Bool :=
  let l := lcList name
  containsL (lcList "total") l ||
  l.tails.any (fun t =>
    (thenLit "under" (thenWs (thenLit "/" (thenWs (thenLit "over" (some t)))))).isSome)

/-- RX_BTTS: whole name is "both teams to score" or "btts". -/
def rxBtts (name : String) : Bool :=
  let l := lcList name
  isFull (thenLit "score" (thenWs (thenLit "to" (thenWs
    (thenLit "teams" (thenWs (thenLit "both" (some l)))))))) ||
  isFull (thenLit "btts" (some l))

/-- RX_HANDICAP: whole name is "asian handicap", or the name starts with
"handicap" and the remainder (before any newline, as the dot of the negative
lookahead does not cross newlines) contains neither "corners" nor "cards". -/
def rxHandicap (name : String) : Bool :=
  let l := lcList name
  isFull (thenLit "handicap" (thenWs (thenLit "asian" (some l)))) ||
  (match stripLit "handicap".toList l with
   | some rest =>
     let line := rest.takeWhile (fun c => c != '\n')
     !(containsL "corners".toList line || containsL "cards".toList line)
   | none => false)

/-- RX_FIRST_HALF_WIN: name starts with "1", "1st" or "first", then "half",
then "winner" or "1x2"; the tail of the name is unconstrained. -/
def rxFirstHalf (name : String) : Bool :=
  let l := lcList name
  let tailOk := fun (r : Option (List Char)) =>
    (thenLit "winner" (thenWs (thenLit "half" (thenWs r)))).isSome ||
    (thenLit "1x2" (thenWs (thenLit "half" (thenWs r)))).isSome
  tailOk (stripLit "1st".toList l) ||
  tailOk (stripLit "1".toList l) ||
  tailOk (stripLit "first".toList l)

/-! ## Outcome-level predicates and numeric-line parsing -/

/-- _val_eq: the outcome label equals (case-insensitively) the given
lowercase literal. -/
def valEq (lit : String) (v : OutcomeValue) : Bool :=
  lowerStr v.value == lit

/-- The outcome label contains "draw" case-insensitively. -/
def containsDraw (v : OutcomeValue) : Bool :=
  containsCI "draw" v.value

/-- `re.match(r"(?i)^over", ...)` on the outcome label. -/
def startsWithOver (v : OutcomeValue) : Bool :=
  (stripLit "over".toList (lcList v.value)).isSome

/-- `re.match(r"(?i)^under", ...)` on the outcome label. -/
def startsWithUnder (v : OutcomeValue) : Bool :=
  (stripLit "under".toList (lcList v.value)).isSome

/-- `str(v.get("handicap") or v.get("value") or "")`: the handicap field when
present and nonempty, else the label. -/
def handicapOrValue (v : OutcomeValue) : String :=
  match v.handicap with
  | some h => if h.isEmpty then v.value else h
  | none => v.value

/-- Literal containment of "2.5" (case-sensitive, as the Python `in`). -/
def contains25 (s : String) : Bool :=
  containsL "2.5".toList s.toList

/-- The greedy number token the regex search finds at this exact position:
optional minus sign, digits, optional dot with digits. -/
def numCore (l : List Char) : Option (List Char) :=
  let ds := l.takeWhile Char.isDigit
  let rest := l.dropWhile Char.isDigit
  if ds.isEmpty then none
  else
    match rest with
    | '.' :: r2 =>
      let fs := r2.takeWhile Char.isDigit
      if fs.isEmpty then some ds else some (ds ++ '.' :: fs)
    | _ => some ds

/-- Number token starting at this position, with an optional leading minus. -/
def numTokenAt (l : List Char) : Option (List Char) :=
  match l with
  | '-' :: rest =>
    (match numCore rest with
     | some t => some ('-' :: t)
     | none => none)
  | _ => numCore l

/-- Leftmost match of the decimal regex, as the search finds it. -/
def firstNumToken : List Char → Option (List Char)
  | [] => none
  | c :: rest =>
    match numTokenAt (c :: rest) with
    | some t => some t
    | none => firstNumToken rest

/-- Natural value of a digit run. -/
def digitsToNat (l : List Char) : Nat :=
  l.foldl (fun n c => n * 10 + (c.toNat - '0'.toNat)) 0

/-- Rational value of an unsigned decimal token. -/
def tokValPos (l : List Char) : ℚ :=
  let ds := l.takeWhile Char.isDigit
  let rest := l.dropWhile Char.isDigit
  match rest with
  | '.' :: fs => (digitsToNat ds : ℚ) + (digitsToNat fs : ℚ) / ((10 : ℚ) ^ fs.length)
  | _ => (digitsToNat ds : ℚ)

/-- Rational value of a decimal token, with an optional leading minus. -/
def tokVal (l : List Char) : ℚ :=
  match l with
  | '-' :: r => -(tokValPos r)
  | _ => tokValPos l

/-- _line_from: the handicap field when nonempty, else the first number token
found in the label, else the empty string. -/
def lineFrom : Option OutcomeValue → String
  | none => ""
  | some v =>
    let h := match v.handicap with
             | some s => s
             | none => ""
    if !h.isEmpty then h
    else
      match firstNumToken v.value.toList with
      | some t => String.mk t
      | none => ""

/-! ## _nearest_to and _pick_bookmaker -/

/-- _nearest_to: walk the candidates, keep the one whose parsed numeric line
is strictly nearest to the target (first-encountered wins ties); the predicate
runs in Except because the caller may pass a non-callable. -/
def nearestTo (target : ℚ) (pred : OutcomeValue → Except PyErr Bool) :
    List OutcomeValue → Option (OutcomeValue × ℚ) → Except PyErr (Option OutcomeValue)
  | [], best => .ok (best.map Prod.fst)
  | ov :: rest, best => do
    let p ← pred ov
    if p then
      let raw := handicapOrValue ov
      match firstNumToken raw.toList with
      | none => nearestTo target pred rest best
      | some tok =>
        let n := tokVal tok
        let d := |n - target|
        match best with
        | none => nearestTo target pred rest (some (ov, d))
        | some (_, bd) =>
          if d < bd then nearestTo target pred rest (some (ov, d))
          else nearestTo target pred rest best
    else nearestTo target pred rest best

/-- The argument extract_markets actually passes as _nearest_to's predicate:
the float 2.5, whose application raises TypeError. -/
def floatNotCallable : OutcomeValue → Except PyErr Bool :=
  fun _ => .error .typeError

/-- PREFERRED_BOOKMAKERS from the source. -/
def PREFERRED_BOOKMAKERS : List String :=
  ["Pinnacle", "bet365", "Betfair", "Betway", "William Hill", "Bwin"]

/-- PREFERRED_BOOKMAKERS.index(name) when present, else len(list)+1. -/
def prefRank (name : String) : Nat :=
  match PREFERRED_BOOKMAKERS.indexOf? name with
  | some i => i
  | none => PREFERRED_BOOKMAKERS.length + 1

/-- The score _pick_bookmaker computes for a matching (book, bet) pair. -/
def bookScore (book : Book) (bet : Bet) : Nat :=
  (PREFERRED_BOOKMAKERS.length + 2 - prefRank book.name) * 100 + bet.values.length

/-- The first bet of a bookmaker whose name the rule matches. -/
def bookBet (rx : String → Bool) (book : Book) : Option Bet :=
  book.bets.find? (fun b => rx b.name)

/-- The loop of _pick_bookmaker, carrying the best pair and its score. -/
def pickLoop (rx : String → Bool) :
    List Book → Option ((Book × Bet) × Nat) → Option ((Book × Bet) × Nat)
  | [], best => best
  | book :: rest, best =>
    match bookBet rx book with
    | none => pickLoop rx rest best
    | some bet =>
      let score := bookScore book bet
      match best with
      | none => pickLoop rx rest (some ((book, bet), score))
      | some (_, bs) =>
        if score > bs then pickLoop rx rest (some ((book, bet), score))
        else pickLoop rx rest best

/-- _pick_bookmaker: best-scoring (book, bet) pair, first-seen wins ties. -/
def pickBookmaker (rx : String → Bool) (books : List Book) : Option (Book × Bet) :=
  (pickLoop rx books none).map Prod.fst

/-! ## extract_markets -/

/-- Lift an optional odd string into a record value (null when absent). -/
def jOpt : Option String → JVal
  | none => JVal.null
  | some s => JVal.str s

/-- Python dict truthiness of a candidate outcome (a nonempty JSON object). -/
def ovSome (o : Option OutcomeValue) : Bool :=
  o.isSome

/-- Match Winner section of extract_markets. -/
def mwMarket (books : List Book) : Option MRecord :=
  (pickBookmaker rxMatchWinner books).bind (fun p =>
    let vals := p.2.values
    let home := (vals.find? (fun v => valEq "home" v || valEq "1" v)).bind OutcomeValue.odd
    let draw := (vals.find? (fun v => valEq "draw" v || valEq "x" v || containsDraw v)).bind OutcomeValue.odd
    let away := (vals.find? (fun v => valEq "away" v || valEq "2" v)).bind OutcomeValue.odd
    if truthyStr home || truthyStr draw || truthyStr away then
      some [("home", jOpt home), ("draw", jOpt draw), ("away", jOpt away),
            ("bookmaker", JVal.str p.1.name)]
    else none)

/-- The two picks of the Over/Under section: exact "2.5" match first, else the
fallback call to _nearest_to — which is handed the float target in the
predicate position and therefore raises when it has any candidate. -/
def ouPicks (vals : List OutcomeValue) :
    Except PyErr (Option OutcomeValue × Option OutcomeValue) := do
  let overExact := vals.find? (fun v => startsWithOver v && contains25 (handicapOrValue v))
  let underExact := vals.find? (fun v => startsWithUnder v && contains25 (handicapOrValue v))
  let overPick ← match overExact with
    | some v => Except.ok (some v)
    | none => nearestTo (5/2) floatNotCallable (vals.filter startsWithOver) none
  let underPick ← match underExact with
    | some v => Except.ok (some v)
    | none => nearestTo (5/2) floatNotCallable (vals.filter startsWithUnder) none
  Except.ok (overPick, underPick)

/-- The record the Over/Under section emits. -/
def ouRecord (book : Book) (overPick underPick : Option OutcomeValue) : MRecord :=
  let line0 := lineFrom (overPick <|> underPick)
  let line := if line0.isEmpty then "2.5" else line0
  [("line", JVal.str line), ("over", jOpt (overPick.bind OutcomeValue.odd)),
   ("under", jOpt (underPick.bind OutcomeValue.odd)), ("bookmaker", JVal.str book.name)]

/-- Over/Under section of extract_markets. -/
def ouMarket (books : List Book) : Except PyErr (Option MRecord) :=
  match pickBookmaker rxOverUnder books with
  | none => .ok none
  | some p =>
    (ouPicks p.2.values).map (fun picks =>
      if ovSome picks.1 || ovSome picks.2 then some (ouRecord p.1 picks.1 picks.2)
      else none)

/-- Both Teams To Score section of extract_markets. -/
def bttsMarket (books : List Book) : Option MRecord :=
  (pickBookmaker rxBtts books).bind (fun p =>
    let vals := p.2.values
    let yes := (vals.find? (valEq "yes")).bind OutcomeValue.odd
    let no := (vals.find? (valEq "no")).bind OutcomeValue.odd
    if truthyStr yes || truthyStr no then
      some [("yes", jOpt yes), ("no", jOpt no), ("bookmaker", JVal.str p.1.name)]
    else none)

/-- Home -1 condition: label contains "home" and the line string ends with
"1", "-1", "1.0" or "-1.0" (the end-anchored regex search), or the label is
itself "home -1" / "home -1.0". -/
def homeM1Cond (v : OutcomeValue) : Bool :=
  (containsCI "home" v.value &&
    (endsWithStr (handicapOrValue v) "-1" || endsWithStr (handicapOrValue v) "1" ||
     endsWithStr (handicapOrValue v) "-1.0" || endsWithStr (handicapOrValue v) "1.0")) ||
  isFull (thenLit "-1" (thenWs (thenLit "home" (some (lcList v.value))))) ||
  isFull (thenLit "-1.0" (thenWs (thenLit "home" (some (lcList v.value)))))

/-- Away +1 condition: label contains "away" and the line string is exactly
"1", "+1", "1.0" or "+1.0" (the fully anchored regex), or the label is itself
"away +1" / "away +1.0". -/
def awayP1Cond (v : OutcomeValue) : Bool :=
  (containsCI "away" v.value &&
    (handicapOrValue v == "1" || handicapOrValue v == "+1" ||
     handicapOrValue v == "1.0" || handicapOrValue v == "+1.0")) ||
  isFull (thenLit "+1" (thenWs (thenLit "away" (some (lcList v.value))))) ||
  isFull (thenLit "+1.0" (thenWs (thenLit "away" (some (lcList v.value)))))

/-- Handicap section of extract_markets. -/
def hcMarket (books : List Book) : Option MRecord :=
  (pickBookmaker rxHandicap books).bind (fun p =>
    let vals := p.2.values
    let homeM1 := (vals.find? homeM1Cond).bind OutcomeValue.odd
    let awayP1 := (vals.find? awayP1Cond).bind OutcomeValue.odd
    if truthyStr homeM1 || truthyStr awayP1 then
      some [("homeMinus1", jOpt homeM1), ("awayPlus1", jOpt awayP1),
            ("bookmaker", JVal.str p.1.name)]
    else none)

/-- First Half Winner section of extract_markets (as Match Winner, but the
draw leg accepts only the "draw"/"x" labels). -/
def fhMarket (books : List Book) : Option MRecord :=
  (pickBookmaker rxFirstHalf books).bind (fun p =>
    let vals := p.2.values
    let home := (vals.find? (fun v => valEq "home" v || valEq "1" v)).bind OutcomeValue.odd
    let draw := (vals.find? (fun v => valEq "draw" v || valEq "x" v)).bind OutcomeValue.odd
    let away := (vals.find? (fun v => valEq "away" v || valEq "2" v)).bind OutcomeValue.odd
    if truthyStr home || truthyStr draw || truthyStr away then
      some [("home", jOpt home), ("draw", jOpt draw), ("away", jOpt away),
            ("bookmaker", JVal.str p.1.name)]
    else none)

/-- The entry the out dict gains when the section emitted a record. -/
def optEntry (k : String) (r : Option MRecord) : List (String × MRecord) :=
  match r with
  | some mrec => [(k, mrec)]
  | none => []

/-- extract_markets: runs the five sections in source order; the Over/Under
section can raise, which propagates. -/
def extract_markets (books : List Book) : Except PyErr (List (String × MRecord)) := do
  let mw := mwMarket books
  let ou ← ouMarket books
  let bt := bttsMarket books
  let hc := hcMarket books
  let fh := fhMarket books
  Except.ok (optEntry "matchWinner" mw ++ optEntry "overUnder" ou ++
             optEntry "btts" bt ++ optEntry "handicap" hc ++
             optEntry "firstHalfWinner" fh)

/-! ## Python dicts as insertion-ordered association lists -/

/-- First value stored under a key. -/
def dictLookup [BEq κ] (d : List (κ × α)) (k : κ) : Option α :=
  (d.find? (fun kv => kv.1 == k)).map Prod.snd

/-- Python dict assignment: replace in place when the key is present,
append at the end otherwise. -/
def dictSet [BEq κ] : List (κ × α) → κ → α → List (κ × α)
  | [], k, v => [(k, v)]
  | (k0, v0) :: rest, k, v =>
    if k0 == k then (k, v) :: rest else (k0, v0) :: dictSet rest k v

/-- The merge of one odds response into a fixture's markets dict:
skip when the response produced nothing, else dict.update with the
falsy (empty) records filtered out. -/
def mergeMarkets (old markets : List (String × MRecord)) : List (String × MRecord) :=
  if markets.isEmpty then old
  else (markets.filter (fun kv => !kv.2.isEmpty)).foldl
    (fun d kv => dictSet d kv.1 kv.2) old

/-- All responses for one fixture merged left to right into an empty dict. -/
def mergeAll (ms : List (List (String × MRecord))) : List (String × MRecord) :=
  ms.foldl mergeMarkets []

/-! ## main: indexing, odds merge, sorting, snapshot -/

/-- One fixture record of the snapshot (the by_fixture entry). -/
structure FixtureRec where
  fixtureId : Int
  date : String
  status : String
  leagueId : Int
  league : String
  home : Option String
  away : Option String
  markets : List (String × MRecord)
  deriving DecidableEq, Repr

/-- The daily snapshot document. -/
structure Snapshot where
  date : String
  count : Nat
  items : List FixtureRec
  deriving DecidableEq, Repr

/-- Fixture identity fields as read from the fixtures response. -/
structure FixtureInput where
  fid : Int
  dateUtc : String
  status : String
  leagueId : Int
  leagueCountry : String
  leagueName : String
  home : Option String
  away : Option String
  deriving DecidableEq, Repr

/-- One odds response item: its fixture id and bookmaker list. -/
structure OddsItem where
  fid : Int
  books : List Book
  deriving DecidableEq, Repr

/-- Python str.strip: drop whitespace at both ends. -/
def stripStr (s : String) : String :=
  String.mk (((s.toList.dropWhile pyWs).reverse.dropWhile pyWs).reverse)

/-- The fresh by_fixture entry built from one fixtures item; the
timezone-normalised kickoff string is produced by the excluded date
collaborator, passed in as normDate. -/
def initRec (normDate : String → String) (f : FixtureInput) : FixtureRec :=
  { fixtureId := f.fid
    date := normDate f.dateUtc
    status := f.status
    leagueId := f.leagueId
    league := stripStr (f.leagueCountry ++ " " ++ f.leagueName)
    home := f.home
    away := f.away
    markets := [] }

/-- Stable insertion of one element into a sorted list. -/
def insertOrd (le : α → α → Bool) (x : α) : List α → List α
  | [] => [x]
  | y :: ys => if le y x then y :: insertOrd le x ys else x :: y :: ys

/-- Stable ascending sort (insertion sort), as the stable Python sorted. -/
def sortOrd (le : α → α → Bool) (l : List α) : List α :=
  l.foldl (fun acc x => insertOrd le x acc) []

/-- The sort key of main: (date string, league id, fixture id), compared
lexicographically. -/
def keyLe (a b : FixtureRec) : Bool :=
  if a.date != b.date then decide (a.date < b.date)
  else if a.leagueId != b.leagueId then decide (a.leagueId < b.leagueId)
  else decide (a.fixtureId ≤ b.fixtureId)

/-- The odds loop body of main: skip fixture id 0 and unknown fixtures,
else extract the markets (which may raise) and merge the nonempty ones into
the fixture's markets dict. -/
def applyOdds (d : List (Int × FixtureRec)) (it : OddsItem) :
    Except PyErr (List (Int × FixtureRec)) :=
  if it.fid == 0 then .ok d
  else
    match dictLookup d it.fid with
    | none => .ok d
    | some r => do
      let markets ← extract_markets it.books
      Except.ok (dictSet d it.fid { r with markets := mergeMarkets r.markets markets })

/-- The snapshot-producing core of main: index the fixtures, fold the odds
responses through the merge, sort, and assemble the daily document. -/
def mainSnapshot (normDate : String → String) (fixtures : List FixtureInput)
    (odds : List OddsItem) (dateYmd : String) : Except PyErr Snapshot := do
  let merged ← odds.foldlM applyOdds
    (fixtures.foldl (fun d f => dictSet d f.fid (initRec normDate f)) [])
  Except.ok { date := dateYmd,
              count := (sortOrd keyLe (merged.map Prod.snd)).length,
              items := sortOrd keyLe (merged.map Prod.snd) }

/-! ## save_snapshot as an ordered effect sequence -/

/-- The filesystem effects save_snapshot performs, in order. -/
inductive FsOp where
  | makedirs (path : String)
  | writeGzip (path : String) (content : Snapshot)
  | writeText (path : String) (content : Snapshot)
  deriving DecidableEq, Repr

/-- date_str[0:4]. -/
def yearOf (d : String) : String :=
  String.mk (d.toList.take 4)

/-- date_str[5:7]. -/
def monthOf (d : String) : String :=
  String.mk ((d.toList.drop 5).take 2)

/-- os.path.join(out_dir, year, month). -/
def ymDir (outDir d : String) : String :=
  outDir ++ "/" ++ yearOf d ++ "/" ++ monthOf d

/-- The archive path {out_dir}/YYYY/MM/{date}.json.gz. -/
def gzPathOf (outDir d : String) : String :=
  ymDir outDir d ++ "/" ++ d ++ ".json.gz"

/-- The convenience path {out_dir}/latest.json. -/
def latestPathOf (outDir : String) : String :=
  outDir ++ "/latest.json"

/-- Run one filesystem effect: on success append it to the executed trace,
on failure return the error together with the trace executed so far. -/
def runOp (oracle : FsOp → Except OsError Unit) (tr : List FsOp) (op : FsOp) :
    Except (OsError × List FsOp) (List FsOp) :=
  match oracle op with
  | .ok _ => .ok (tr ++ [op])
  | .error e => .error (e, tr)

/-- save_snapshot: makedirs for the year/month dir and the root, write the
gzip archive, then write latest.json; returns the archive path and the trace
of executed effects, and propagates the first failure. -/
def save_snapshot (oracle : FsOp → Except OsError Unit) (out : Snapshot)
    (outDir : String) : Except (OsError × List FsOp) (String × List FsOp) := do
  let t1 ← runOp oracle [] (.makedirs (ymDir outDir out.date))
  let t2 ← runOp oracle t1 (.makedirs outDir)
  let t3 ← runOp oracle t2 (.writeGzip (gzPathOf outDir out.date) out)
  let t4 ← runOp oracle t3 (.writeText (latestPathOf outDir) out)
  Except.ok (gzPathOf outDir out.date, t4)

/-! ## prune_old_snapshots -/

/-- The inner loop over the files of one walked directory: skip latest.json
and non-archive names, stat (any failure skips the file), remove when the
mtime is strictly older than the cutoff, and keep only the paths whose
removal succeeded; any removal failure is caught and the loop continues. -/
def pruneFiles (statO : String → Except OsError Int)
    (remO : String → Except OsError Unit) (cutoff : Int) (root : String) :
    List String → List String
  | [] => []
  | fn :: rest =>
    if fn == "latest.json" then pruneFiles statO remO cutoff root rest
    else if !endsWithStr fn ".json.gz" then pruneFiles statO remO cutoff root rest
    else
      let fp := root ++ "/" ++ fn
      match statO fp with
      | .error _ => pruneFiles statO remO cutoff root rest
      | .ok mtime =>
        if mtime < cutoff then
          match remO fp with
          | .ok _ => fp :: pruneFiles statO remO cutoff root rest
          | .error _ => pruneFiles statO remO cutoff root rest
        else pruneFiles statO remO cutoff root rest

/-- The os.walk loop of prune_old_snapshots. -/
def pruneWalk (statO : String → Except OsError Int)
    (remO : String → Except OsError Unit) (cutoff : Int) :
    List (String × List String) → List String
  | [] => []
  | (root, files) :: rest =>
    pruneFiles statO remO cutoff root files ++ pruneWalk statO remO cutoff rest

/-- prune_old_snapshots: nothing at all when retention_days is nonpositive,
else walk every directory with cutoff now - retention_days * 86400. -/
def prune_old_snapshots (statO : String → Except OsError Int)
    (remO : String → Except OsError Unit) (now : Int)
    (walk : List (String × List String)) (retentionDays : Int) : List String :=
  if retentionDays ≤ 0 then []
  else pruneWalk statO remO (now - retentionDays * 86400) walk

/-! ## Specification-side definitions (written from the spec's words, for
refinement statements) -/

/-- The highest score over a list of candidates. -/
def maxScoreVal (f : α → Nat) (l : List α) : Nat :=
  l.foldr (fun x m => max (f x) m) 0

/-- Highest score wins; first-seen wins ties: the first candidate whose
score attains the maximum. -/
def firstArgmax (f : α → Nat) (l : List α) : Option α :=
  l.find? (fun x => f x == maxScoreVal f l)

/-- The preference weight of the spec: sizeOfPreferenceList + 2 - index for
a bookmaker on the preference list, and 1 for any unlisted bookmaker. -/
def prefWeight (name : String) : Nat :=
  match PREFERRED_BOOKMAKERS.indexOf? name with
  | some i => PREFERRED_BOOKMAKERS.length + 2 - i
  | none => 1

/-- The spec's score: preferenceWeight * 100 + outcomeCount. -/
def offerScore (p : Book × Bet) : Nat :=
  prefWeight p.1.name * 100 + p.2.values.length

/-- The candidate offers for one rule: each bookmaker's first matching bet. -/
def matchingOffers (rx : String → Bool) (books : List Book) : List (Book × Bet) :=
  books.filterMap (fun book => (bookBet rx book).map (fun bet => (book, bet)))

/-- Proof-side mirror of the selection loop over scored candidates. -/
def selLoop (f : α → Nat) : List α → Option (α × Nat) → Option (α × Nat)
  | [], best => best
  | x :: rest, best =>
    match best with
    | none => selLoop f rest (some (x, f x))
    | some (b, bs) =>
      if f x > bs then selLoop f rest (some (x, f x))
      else selLoop f rest (some (b, bs))

/-- The last-seen non-empty value written for a key across a sequence of
responses (later responses take precedence). -/
def lastNonEmptyWrite (k : String) : List (List (String × MRecord)) → Option MRecord
  | [] => none
  | m :: ms =>
    match lastNonEmptyWrite k ms with
    | some v => some v
    | none =>
      match dictLookup m k with
      | some v => if v.isEmpty then none else some v
      | none => none

/-- The stat oracle reports the file as strictly older than the cutoff. -/
def isExpiredOk (statO : String → Except OsError Int) (cutoff : Int) (fp : String) : Bool :=
  match statO fp with
  | .ok m => decide (m < cutoff)
  | .error _ => false

/-- The removal oracle succeeds on the file. -/
def removeOk (remO : String → Except OsError Unit) (fp : String) : Bool :=
  match remO fp with
  | .ok _ => true
  | .error _ => false

/-- Spec-side pruner result: for every walked file, keep its path exactly
when it is an archive file other than latest.json, its mtime is older than
now - retentionDays * 86400, and its removal succeeded; nothing at all when
retention is nonpositive. -/
def removedSpec (statO : String → Except OsError Int)
    (remO : String → Except OsError Unit) (now : Int)
    (walk : List (String × List String)) (retentionDays : Int) : List String :=
  if retentionDays ≤ 0 then []
  else
    (walk.map (fun rf => rf.2.filterMap (fun fn =>
      if fn != "latest.json" && endsWithStr fn ".json.gz" &&
         isExpiredOk statO (now - retentionDays * 86400) (rf.1 ++ "/" ++ fn) &&
         removeOk remO (rf.1 ++ "/" ++ fn)
      then some (rf.1 ++ "/" ++ fn) else none))).flatten

/-- Spec-side pruner result when every stat and removal succeeds: exactly
the archive files other than latest.json whose mtime is older than the
cutoff. -/
def expiredSpec (mt : String → Int) (now : Int)
    (walk : List (String × List String)) (retentionDays : Int) : List String :=
  if retentionDays ≤ 0 then []
  else
    (walk.map (fun rf => rf.2.filterMap (fun fn =>
      if fn != "latest.json" && endsWithStr fn ".json.gz" &&
         decide (mt (rf.1 ++ "/" ++ fn) < now - retentionDays * 86400)
      then some (rf.1 ++ "/" ++ fn) else none))).flatten

/-- The field list of each emitted market key. -/
def marketFields (k : String) : List String :=
  if k == "matchWinner" then ["home", "draw", "away", "bookmaker"]
  else if k == "overUnder" then ["line", "over", "under", "bookmaker"]
  else if k == "btts" then ["yes", "no", "bookmaker"]
  else if k == "handicap" then ["homeMinus1", "awayPlus1", "bookmaker"]
  else if k == "firstHalfWinner" then ["home", "draw", "away", "bookmaker"]
  else []

/-- The name rule that produced each emitted market key. -/
def ruleFor (k : String) : String → Bool :=
  if k == "matchWinner" then rxMatchWinner
  else if k == "overUnder" then rxOverUnder
  else if k == "btts" then rxBtts
  else if k == "handicap" then rxHandicap
  else if k == "firstHalfWinner" then rxFirstHalf
  else fun _ => false

/-! ## Concrete inputs used by counterexamples and witnesses -/

/-- One bookmaker offering Over/Under with a single Over outcome whose line
does not contain the literal "2.5". -/
def c1Books : List Book :=
  [⟨"Bmk", [⟨"Over/Under", [⟨"Over 3.0", some "1.50", none⟩]⟩]⟩]

/-- One bookmaker offering Handicap with a lone home outcome at line -11. -/
def c2Books : List Book :=
  [⟨"Bmk", [⟨"Handicap", [⟨"Home", some "2.10", some "-11"⟩]⟩]⟩]

/-- One bookmaker with a single bet named "Handicap Total", which satisfies
both the Over/Under rule and the Handicap rule. -/
def c4Books : List Book :=
  [⟨"Bmk", [⟨"Handicap Total",
    [⟨"Over 2.5", some "1.90", none⟩, ⟨"Home", some "2.00", some "-1"⟩]⟩]⟩]

/-- One bookmaker whose only bet name matches none of the five rules. -/
def c4NoRuleBooks : List Book :=
  [⟨"Bmk", [⟨"Correct Score", [⟨"1:0", some "7.00", none⟩]⟩]⟩]

/-- One bookmaker offering a full Match Winner market. -/
def mwBooks : List Book :=
  [⟨"Bmk", [⟨"Match Winner",
    [⟨"Home", some "1.50", none⟩, ⟨"Draw", some "3.20", none⟩,
     ⟨"Away", some "6.00", none⟩]⟩]⟩]

/-- A merge sequence: a first response writes overUnder, a second response
overwrites it and a later empty record is ignored. -/
def c8Responses : List (List (String × MRecord)) :=
  [[("overUnder", [("line", JVal.str "2.5")])],
   [("overUnder", [("line", JVal.str "3.0")]), ("btts", [])]]

/-- A filesystem oracle on which every operation succeeds. -/
def okOracle : FsOp → Except OsError Unit :=
  fun _ => .ok ()

/-- A filesystem oracle on which exactly the gzip write fails. -/
def gzFailOracle : FsOp → Except OsError Unit :=
  fun op =>
    match op with
    | .writeGzip _ _ => .error .ioError
    | _ => .ok ()

/-- A small snapshot for the persistence witnesses. -/
def wSnap : Snapshot :=
  { date := "2025-10-12", count := 0, items := [] }

/-- A single fixtures item for the snapshot witnesses. -/
def wFixture : FixtureInput :=
  { fid := 1, dateUtc := "2025-10-12T15:00:00Z", status := "NS", leagueId := 71,
    leagueCountry := "Brazil", leagueName := "Serie A",
    home := some "Flamengo", away := some "Santos" }

/-! # Theorems -/

/-- When no bet name of any bookmaker matches the rule, the selection loop
leaves its accumulator untouched. -/
theorem pickLoop_skip (rx : String → Bool) (books : List Book)
    (h : ∀ book ∈ books, ∀ bet ∈ book.bets, rx bet.name = false) :
    ∀ acc, pickLoop rx books acc = acc := by
  induction books with
  | nil => intro acc; rfl
  | cons book rest ih =>
    intro acc
    have hb : bookBet rx book = none := by
      unfold bookBet
      rw [List.find?_eq_none]
      intro b hbmem
      simp [h book (List.mem_cons_self book rest) b hbmem]
    simp only [pickLoop, hb]
    exact ih (fun bk hbk bt hbt => h bk (List.mem_cons_of_mem _ hbk) bt hbt) acc

/-- When no bet name of any bookmaker matches the rule, no bookmaker is
picked for it. -/
theorem pickBookmaker_none (rx : String → Bool) (books : List Book)
    (h : ∀ book ∈ books, ∀ bet ∈ book.bets, rx bet.name = false) :
    pickBookmaker rx books = none := by
  unfold pickBookmaker
  rw [pickLoop_skip rx books h none]
  rfl

/-- C1: with an Over-labelled outcome present but none whose line contains
the literal "2.5", the Over/Under fallback does not pick the nearest line; it
raises TypeError, because extract_markets passes the numeric target 2.5 in
the predicate position of _nearest_to. -/
theorem ou_fallback_raises_typeerror :
    extract_markets c1Books = Except.error PyErr.typeError := by
  rfl

/-- C2 counterexample: an outcome labelled "Home" whose handicap line is
"-11" (not -1) is selected as the homeMinus1 leg, because the end-anchored
regex search accepts any line string ending in "1". -/
theorem handicap_line_not_minus_one_selected :
    extract_markets c2Books = Except.ok
      [("handicap", [("homeMinus1", JVal.str "2.10"), ("awayPlus1", JVal.null),
                     ("bookmaker", JVal.str "Bmk")])] := by
  rfl

/-- C2 (amended): the home leg comes only from an outcome whose label
contains "home" and whose line string merely ends in "1" or "1.0" (optionally
after a minus sign), or whose label is exactly "home -1"; the away leg only
from an outcome whose label contains "away" with line string exactly
1/+1/1.0/+1.0, or whose label is exactly "away +1"; the market is emitted iff
at least one leg carries a truthy odd. -/
theorem handicap_legs_selection (books : List Book) (book : Book) (bet : Bet)
    (h : pickBookmaker rxHandicap books = some (book, bet)) :
    (∀ o, (bet.values.find? homeM1Cond).bind OutcomeValue.odd = some o →
      ∃ v ∈ bet.values, v.odd = some o ∧
        ((containsCI "home" v.value = true ∧
          (endsWithStr (handicapOrValue v) "-1" = true ∨
           endsWithStr (handicapOrValue v) "1" = true ∨
           endsWithStr (handicapOrValue v) "-1.0" = true ∨
           endsWithStr (handicapOrValue v) "1.0" = true)) ∨
         isFull (thenLit "-1" (thenWs (thenLit "home" (some (lcList v.value))))) = true ∨
         isFull (thenLit "-1.0" (thenWs (thenLit "home" (some (lcList v.value))))) = true)) ∧
    (∀ o, (bet.values.find? awayP1Cond).bind OutcomeValue.odd = some o →
      ∃ v ∈ bet.values, v.odd = some o ∧
        ((containsCI "away" v.value = true ∧
          (handicapOrValue v = "1" ∨ handicapOrValue v = "+1" ∨
           handicapOrValue v = "1.0" ∨ handicapOrValue v = "+1.0")) ∨
         isFull (thenLit "+1" (thenWs (thenLit "away" (some (lcList v.value))))) = true ∨
         isFull (thenLit "+1.0" (thenWs (thenLit "away" (some (lcList v.value))))) = true)) ∧
    ((hcMarket books).isSome = true ↔
      (truthyStr ((bet.values.find? homeM1Cond).bind OutcomeValue.odd) = true ∨
       truthyStr ((bet.values.find? awayP1Cond).bind OutcomeValue.odd) = true)) := by
  refine ⟨?_, ?_, ?_⟩
  · intro o ho
    cases hf : bet.values.find? homeM1Cond with
    | none => rw [hf] at ho; simp at ho
    | some v =>
      rw [hf] at ho
      simp only [Option.some_bind] at ho
      refine ⟨v, List.mem_of_find?_eq_some hf, ho, ?_⟩
      have hc := List.find?_some hf
      simpa [homeM1Cond, Bool.or_eq_true, Bool.and_eq_true, or_assoc] using hc
  · intro o ho
    cases hf : bet.values.find? awayP1Cond with
    | none => rw [hf] at ho; simp at ho
    | some v =>
      rw [hf] at ho
      simp only [Option.some_bind] at ho
      refine ⟨v, List.mem_of_find?_eq_some hf, ho, ?_⟩
      have hc := List.find?_some hf
      simpa [awayP1Cond, Bool.or_eq_true, Bool.and_eq_true, or_assoc] using hc
  · have hrw : hcMarket books =
        (if truthyStr ((bet.values.find? homeM1Cond).bind OutcomeValue.odd) ||
            truthyStr ((bet.values.find? awayP1Cond).bind OutcomeValue.odd) then
          some [("homeMinus1", jOpt ((bet.values.find? homeM1Cond).bind OutcomeValue.odd)),
                ("awayPlus1", jOpt ((bet.values.find? awayP1Cond).bind OutcomeValue.odd)),
                ("bookmaker", JVal.str book.name)]
        else none) := by
      simp [hcMarket, h]
    rw [hrw]
    by_cases hcond : (truthyStr ((bet.values.find? homeM1Cond).bind OutcomeValue.odd) ||
        truthyStr ((bet.values.find? awayP1Cond).bind OutcomeValue.odd)) = true
    · simp only [if_pos hcond, Option.isSome_some]
      simpa [Bool.or_eq_true] using hcond
    · simp only [if_neg hcond, Option.isSome_none]
      simp only [Bool.or_eq_true] at hcond
      simpa using hcond

/-- C2 witness: the amended handicap characterisation applied to the
concrete single-bookmaker input. -/
theorem handicap_legs_selection_witness :
    (∀ o, ((⟨"Handicap", [⟨"Home", some "2.10", some "-11"⟩]⟩ : Bet).values.find?
        homeM1Cond).bind OutcomeValue.odd = some o →
      ∃ v ∈ (⟨"Handicap", [⟨"Home", some "2.10", some "-11"⟩]⟩ : Bet).values,
        v.odd = some o ∧
        ((containsCI "home" v.value = true ∧
          (endsWithStr (handicapOrValue v) "-1" = true ∨
           endsWithStr (handicapOrValue v) "1" = true ∨
           endsWithStr (handicapOrValue v) "-1.0" = true ∨
           endsWithStr (handicapOrValue v) "1.0" = true)) ∨
         isFull (thenLit "-1" (thenWs (thenLit "home" (some (lcList v.value))))) = true ∨
         isFull (thenLit "-1.0" (thenWs (thenLit "home" (some (lcList v.value))))) = true)) ∧
    (∀ o, ((⟨"Handicap", [⟨"Home", some "2.10", some "-11"⟩]⟩ : Bet).values.find?
        awayP1Cond).bind OutcomeValue.odd = some o →
      ∃ v ∈ (⟨"Handicap", [⟨"Home", some "2.10", some "-11"⟩]⟩ : Bet).values,
        v.odd = some o ∧
        ((containsCI "away" v.value = true ∧
          (handicapOrValue v = "1" ∨ handicapOrValue v = "+1" ∨
           handicapOrValue v = "1.0" ∨ handicapOrValue v = "+1.0")) ∨
         isFull (thenLit "+1" (thenWs (thenLit "away" (some (lcList v.value))))) = true ∨
         isFull (thenLit "+1.0" (thenWs (thenLit "away" (some (lcList v.value))))) = true)) ∧
    ((hcMarket c2Books).isSome = true ↔
      (truthyStr (((⟨"Handicap", [⟨"Home", some "2.10", some "-11"⟩]⟩ : Bet).values.find?
          homeM1Cond).bind OutcomeValue.odd) = true ∨
       truthyStr (((⟨"Handicap", [⟨"Home", some "2.10", some "-11"⟩]⟩ : Bet).values.find?
          awayP1Cond).bind OutcomeValue.odd) = true)) :=
  handicap_legs_selection c2Books
    ⟨"Bmk", [⟨"Handicap", [⟨"Home", some "2.10", some "-11"⟩]⟩]⟩
    ⟨"Handicap", [⟨"Home", some "2.10", some "-11"⟩]⟩ rfl

/-- C4 counterexample: the single bet name "Handicap Total" satisfies both
the Over/Under rule and the Handicap rule, and extract_markets emits both
markets from it for the same fixture. -/
theorem one_bet_name_two_market_types :
    extract_markets c4Books = Except.ok
      [("overUnder", [("line", JVal.str "2.5"), ("over", JVal.str "1.90"),
                      ("under", JVal.null), ("bookmaker", JVal.str "Bmk")]),
       ("handicap", [("homeMinus1", JVal.str "2.00"), ("awayPlus1", JVal.null),
                     ("bookmaker", JVal.str "Bmk")])] ∧
    rxOverUnder "Handicap Total" = true ∧ rxHandicap "Handicap Total" = true := by
  refine ⟨rfl, rfl, rfl⟩

/-- C4 (amended): the five pattern rules are evaluated independently, so one
bet name may source several MarketTypes; but a name satisfying no rule
produces no market: when every bet name of every bookmaker matches none of
the five rules, extract_markets emits nothing. -/
theorem no_rule_match_no_market (books : List Book)
    (h : ∀ book ∈ books, ∀ bet ∈ book.bets,
      rxMatchWinner bet.name = false ∧ rxOverUnder bet.name = false ∧
      rxBtts bet.name = false ∧ rxHandicap bet.name = false ∧
      rxFirstHalf bet.name = false) :
    extract_markets books = Except.ok [] := by
  have h1 : pickBookmaker rxMatchWinner books = none :=
    pickBookmaker_none _ _ (fun bk hbk bt hbt => (h bk hbk bt hbt).1)
  have h2 : pickBookmaker rxOverUnder books = none :=
    pickBookmaker_none _ _ (fun bk hbk bt hbt => (h bk hbk bt hbt).2.1)
  have h3 : pickBookmaker rxBtts books = none :=
    pickBookmaker_none _ _ (fun bk hbk bt hbt => (h bk hbk bt hbt).2.2.1)
  have h4 : pickBookmaker rxHandicap books = none :=
    pickBookmaker_none _ _ (fun bk hbk bt hbt => (h bk hbk bt hbt).2.2.2.1)
  have h5 : pickBookmaker rxFirstHalf books = none :=
    pickBookmaker_none _ _ (fun bk hbk bt hbt => (h bk hbk bt hbt).2.2.2.2)
  simp [extract_markets, mwMarket, ouMarket, bttsMarket, hcMarket, fhMarket,
        optEntry, h1, h2, h3, h4, h5]
  rfl

/-- C4 witness: on a bookmaker whose only bet is "Correct Score" (matching
no rule), extraction produces the empty markets dict. -/
theorem no_rule_match_no_market_witness :
    extract_markets c4NoRuleBooks = Except.ok [] :=
  no_rule_match_no_market c4NoRuleBooks (by decide)

/-- The loop score of _pick_bookmaker equals the spec's score formula. -/
theorem bookScore_eq_offerScore (book : Book) (bet : Bet) :
    bookScore book bet = offerScore (book, bet) := by
  unfold bookScore offerScore prefWeight prefRank
  cases h : PREFERRED_BOOKMAKERS.indexOf? book.name <;>
    simp [h, PREFERRED_BOOKMAKERS]

/-- Prepending one candidate to a first-argmax selection either replaces it
(strictly better later candidate) or shadows the new head. -/
theorem firstArgmax_cons_cons (f : α → Nat) (b x : α) (xs : List α) :
    firstArgmax f (b :: x :: xs) =
      if f x > f b then firstArgmax f (x :: xs) else firstArgmax f (b :: xs) := by
  have hmx : maxScoreVal f (x :: xs) = max (f x) (maxScoreVal f xs) := rfl
  have hmb2 : maxScoreVal f (b :: x :: xs) =
      max (f b) (max (f x) (maxScoreVal f xs)) := rfl
  by_cases hx : f x > f b
  · have hS : maxScoreVal f (b :: x :: xs) = maxScoreVal f (x :: xs) := by
      rw [hmb2, hmx]
      exact Nat.max_eq_right (le_trans (Nat.le_of_lt hx) (Nat.le_max_left _ _))
    have hlt : f b < maxScoreVal f (x :: xs) := by
      rw [hmx]
      exact lt_of_lt_of_le hx (Nat.le_max_left _ _)
    rw [if_pos hx]
    unfold firstArgmax
    rw [hS]
    have hbne : (f b == maxScoreVal f (x :: xs)) = false := by
      simp [Nat.ne_of_lt hlt]
    simp [List.find?_cons, hbne]
  · have hx' : f x ≤ f b := Nat.le_of_not_lt hx
    have hS : maxScoreVal f (b :: x :: xs) = max (f b) (maxScoreVal f xs) := by
      rw [hmb2, ← Nat.max_assoc, Nat.max_eq_left hx']
    have hSb : maxScoreVal f (b :: xs) = max (f b) (maxScoreVal f xs) := rfl
    rw [if_neg hx]
    unfold firstArgmax
    rw [hS, ← hSb]
    by_cases hb : (f b == maxScoreVal f (b :: xs)) = true
    · simp [List.find?_cons, hb]
    · have hb' : (f b == maxScoreVal f (b :: xs)) = false := by
        simpa using hb
      have hblt : f b < maxScoreVal f (b :: xs) := by
        have hle : f b ≤ maxScoreVal f (b :: xs) := by
          rw [hSb]
          exact Nat.le_max_left _ _
        have hne : f b ≠ maxScoreVal f (b :: xs) := by
          simpa using hb
        exact Nat.lt_of_le_of_ne hle hne
      have hxne : (f x == maxScoreVal f (b :: xs)) = false := by
        have : f x < maxScoreVal f (b :: xs) := lt_of_le_of_lt hx' hblt
        simp [Nat.ne_of_lt this]
      simp [List.find?_cons, hb', hxne]

/-- The selection loop seeded with one candidate computes the first argmax
of that candidate followed by the remaining list. -/
theorem selLoop_some_eq (f : α → Nat) (l : List α) :
    ∀ b, (selLoop f l (some (b, f b))).map Prod.fst = firstArgmax f (b :: l) := by
  induction l with
  | nil =>
    intro b
    simp [selLoop, firstArgmax, maxScoreVal, List.find?_cons, Nat.max_zero]
  | cons x xs ih =>
    intro b
    simp only [selLoop]
    rw [firstArgmax_cons_cons]
    by_cases hx : f x > f b
    · simp only [if_pos hx]
      exact ih x
    · simp only [if_neg hx]
      exact ih b

/-- The selection loop from an empty accumulator is the first argmax. -/
theorem selLoop_none_eq (f : α → Nat) (l : List α) :
    (selLoop f l none).map Prod.fst = firstArgmax f l := by
  cases l with
  | nil => rfl
  | cons x xs =>
    simp only [selLoop]
    exact selLoop_some_eq f xs x

/-- The _pick_bookmaker loop is the generic scored selection loop run over
the matching offers. -/
theorem pickLoop_eq_selLoop (rx : String → Bool) (books : List Book) :
    ∀ acc, pickLoop rx books acc = selLoop offerScore (matchingOffers rx books) acc := by
  induction books with
  | nil => intro acc; rfl
  | cons book rest ih =>
    intro acc
    cases hb : bookBet rx book with
    | none =>
      have hm : matchingOffers rx (book :: rest) = matchingOffers rx rest := by
        simp [matchingOffers, List.filterMap_cons, hb]
      simp only [pickLoop, hb, hm]
      exact ih acc
    | some bet =>
      have hm : matchingOffers rx (book :: rest) =
          (book, bet) :: matchingOffers rx rest := by
        simp [matchingOffers, List.filterMap_cons, hb]
      rw [hm]
      simp only [pickLoop, hb, selLoop]
      cases acc with
      | none =>
        rw [bookScore_eq_offerScore]
        exact ih _
      | some pr =>
        obtain ⟨p, bs⟩ := pr
        rw [bookScore_eq_offerScore]
        by_cases hgt : offerScore (book, bet) > bs
        · simp only [if_pos hgt]
          exact ih _
        · simp only [if_neg hgt]
          exact ih _

/-- C3: _pick_bookmaker selects, among each bookmaker's first rule-matching
bet, the first offer maximising preferenceWeight * 100 + outcomeCount
(preference-list bookmakers weigh sizeOfPreferenceList + 2 - index, unlisted
ones weigh 1); ties go to the first-encountered offer, and the selection is a
pure function of the ordered input list, hence deterministic. -/
theorem pick_bookmaker_first_argmax (rx : String → Bool) (books : List Book) :
    pickBookmaker rx books = firstArgmax offerScore (matchingOffers rx books) := by
  unfold pickBookmaker
  rw [pickLoop_eq_selLoop]
  exact selLoop_none_eq offerScore (matchingOffers rx books)

/-- C5: save_snapshot executes makedirs, then the gzip archive write, then
the latest.json write, in that order; on success the trace is exactly that
sequence with the archive write strictly before the latest write and both
writes succeeded; on any failure no latest write was ever executed; and a
failing archive write aborts with that error before the latest write is
attempted. -/
theorem save_snapshot_order_and_failure (oracle : FsOp → Except OsError Unit)
    (out : Snapshot) (od : String) :
    (∀ gz tr, save_snapshot oracle out od = Except.ok (gz, tr) →
      gz = gzPathOf od out.date ∧
      tr = [FsOp.makedirs (ymDir od out.date), FsOp.makedirs od,
            FsOp.writeGzip (gzPathOf od out.date) out,
            FsOp.writeText (latestPathOf od) out] ∧
      oracle (FsOp.writeGzip (gzPathOf od out.date) out) = Except.ok () ∧
      oracle (FsOp.writeText (latestPathOf od) out) = Except.ok ()) ∧
    (∀ e tr, save_snapshot oracle out od = Except.error (e, tr) →
      ∀ p s, FsOp.writeText p s ∉ tr) ∧
    (oracle (FsOp.makedirs (ymDir od out.date)) = Except.ok () →
     oracle (FsOp.makedirs od) = Except.ok () →
     ∀ e, oracle (FsOp.writeGzip (gzPathOf od out.date) out) = Except.error e →
       save_snapshot oracle out od =
         Except.error (e, [FsOp.makedirs (ymDir od out.date), FsOp.makedirs od])) := by
  cases h1 : oracle (FsOp.makedirs (ymDir od out.date)) with
  | error e1 =>
    have hs : save_snapshot oracle out od = Except.error (e1, []) := by
      unfold save_snapshot runOp
      rw [h1]
      rfl
    refine ⟨?_, ?_, ?_⟩
    · intro gz tr h
      rw [hs] at h
      exact absurd h (by simp)
    · intro e tr h p s
      rw [hs] at h
      simp only [Except.error.injEq, Prod.mk.injEq] at h
      rw [← h.2]
      simp
    · intro hm1
      exact absurd hm1 (by simp)
  | ok u1 =>
    cases u1
    cases h2 : oracle (FsOp.makedirs od) with
    | error e2 =>
      have hs : save_snapshot oracle out od =
          Except.error (e2, [FsOp.makedirs (ymDir od out.date)]) := by
        unfold save_snapshot runOp
        rw [h1, h2]
        rfl
      refine ⟨?_, ?_, ?_⟩
      · intro gz tr h
        rw [hs] at h
        exact absurd h (by simp)
      · intro e tr h p s
        rw [hs] at h
        simp only [Except.error.injEq, Prod.mk.injEq] at h
        rw [← h.2]
        simp
      · intro hm1 hm2
        exact absurd hm2 (by simp)
    | ok u2 =>
      cases u2
      cases h3 : oracle (FsOp.writeGzip (gzPathOf od out.date) out) with
      | error e3 =>
        have hs : save_snapshot oracle out od =
            Except.error (e3, [FsOp.makedirs (ymDir od out.date), FsOp.makedirs od]) := by
          unfold save_snapshot runOp
          rw [h1, h2, h3]
          rfl
        refine ⟨?_, ?_, ?_⟩
        · intro gz tr h
          rw [hs] at h
          exact absurd h (by simp)
        · intro e tr h p s
          rw [hs] at h
          simp only [Except.error.injEq, Prod.mk.injEq] at h
          rw [← h.2]
          simp
        · intro hm1 hm2 e hgz
          simp only [Except.error.injEq] at hgz
          rw [← hgz]
          exact hs
      | ok u3 =>
        cases u3
        cases h4 : oracle (FsOp.writeText (latestPathOf od) out) with
        | error e4 =>
          have hs : save_snapshot oracle out od =
              Except.error (e4, [FsOp.makedirs (ymDir od out.date), FsOp.makedirs od,
                FsOp.writeGzip (gzPathOf od out.date) out]) := by
            unfold save_snapshot runOp
            rw [h1, h2, h3, h4]
            rfl
          refine ⟨?_, ?_, ?_⟩
          · intro gz tr h
            rw [hs] at h
            exact absurd h (by simp)
          · intro e tr h p s
            rw [hs] at h
            simp only [Except.error.injEq, Prod.mk.injEq] at h
            rw [← h.2]
            simp
          · intro hm1 hm2 e hgz
            exact absurd hgz (by simp)
        | ok u4 =>
          cases u4
          have hs : save_snapshot oracle out od =
              Except.ok (gzPathOf od out.date,
                [FsOp.makedirs (ymDir od out.date), FsOp.makedirs od,
                 FsOp.writeGzip (gzPathOf od out.date) out,
                 FsOp.writeText (latestPathOf od) out]) := by
            unfold save_snapshot runOp
            rw [h1, h2, h3, h4]
            rfl
          refine ⟨?_, ?_, ?_⟩
          · intro gz tr h
            rw [hs] at h
            simp only [Except.ok.injEq, Prod.mk.injEq] at h
            exact ⟨h.1.symm, h.2.symm, rfl, rfl⟩
          · intro e tr h p s
            rw [hs] at h
            exact absurd h (by simp)
          · intro hm1 hm2 e hgz
            exact absurd hgz (by simp)

/-- C5 witness: on an all-succeeding oracle the full ordered trace is
produced, and on an oracle failing exactly at the gzip write the run aborts
with the error before any latest write. -/
theorem save_snapshot_order_and_failure_witness :
    (save_snapshot okOracle wSnap "data/odds" =
      Except.ok ("data/odds/2025/10/2025-10-12.json.gz",
        [FsOp.makedirs "data/odds/2025/10", FsOp.makedirs "data/odds",
         FsOp.writeGzip "data/odds/2025/10/2025-10-12.json.gz" wSnap,
         FsOp.writeText "data/odds/latest.json" wSnap])) ∧
    (save_snapshot gzFailOracle wSnap "data/odds" =
      Except.error (OsError.ioError,
        [FsOp.makedirs "data/odds/2025/10", FsOp.makedirs "data/odds"])) :=
  ⟨rfl,
   (save_snapshot_order_and_failure gzFailOracle wSnap "data/odds").2.2
     rfl rfl OsError.ioError rfl⟩

/-- The file loop of the pruner keeps exactly the eligible, expired,
successfully removed paths, in walk order. -/
theorem pruneFiles_eq (statO : String → Except OsError Int)
    (remO : String → Except OsError Unit) (cutoff : Int) (root : String)
    (files : List String) :
    pruneFiles statO remO cutoff root files = files.filterMap (fun fn =>
      if fn != "latest.json" && endsWithStr fn ".json.gz" &&
         isExpiredOk statO cutoff (root ++ "/" ++ fn) &&
         removeOk remO (root ++ "/" ++ fn)
      then some (root ++ "/" ++ fn) else none) := by
  induction files with
  | nil => rfl
  | cons fn rest ih =>
    by_cases h1 : fn = "latest.json"
    · simp [pruneFiles, List.filterMap_cons, h1, ih]
    · have h1b : (fn == "latest.json") = false := by simp [h1]
      by_cases h2 : endsWithStr fn ".json.gz" = true
      · cases h3 : statO (root ++ "/" ++ fn) with
        | error e =>
          simp [pruneFiles, List.filterMap_cons, h1, h1b, h2, isExpiredOk, h3, ih]
        | ok m =>
          by_cases h4 : m < cutoff
          · cases h5 : remO (root ++ "/" ++ fn) with
            | ok u =>
              simp [pruneFiles, List.filterMap_cons, h1, h1b, h2, isExpiredOk, h3,
                    h4, removeOk, h5, ih]
            | error e =>
              simp [pruneFiles, List.filterMap_cons, h1, h1b, h2, isExpiredOk, h3,
                    h4, removeOk, h5, ih]
          · simp [pruneFiles, List.filterMap_cons, h1, h1b, h2, isExpiredOk, h3, h4, ih]
      · have h2b : endsWithStr fn ".json.gz" = false := by simpa using h2
        simp [pruneFiles, List.filterMap_cons, h1, h1b, h2b, ih]

/-- The walk loop of the pruner concatenates the per-directory results. -/
theorem pruneWalk_eq (statO : String → Except OsError Int)
    (remO : String → Except OsError Unit) (cutoff : Int)
    (walk : List (String × List String)) :
    pruneWalk statO remO cutoff walk =
      (walk.map (fun rf => rf.2.filterMap (fun fn =>
        if fn != "latest.json" && endsWithStr fn ".json.gz" &&
           isExpiredOk statO cutoff (rf.1 ++ "/" ++ fn) &&
           removeOk remO (rf.1 ++ "/" ++ fn)
        then some (rf.1 ++ "/" ++ fn) else none))).flatten := by
  induction walk with
  | nil => rfl
  | cons rf rest ih =>
    obtain ⟨root, files⟩ := rf
    simp only [pruneWalk, List.map_cons, List.flatten_cons]
    rw [pruneFiles_eq, ih]

/-- C9: the pruner catches every per-file stat or removal failure, keeps
scanning the remaining files, and returns exactly the successfully removed
paths. -/
theorem prune_returns_successful_removals (statO : String → Except OsError Int)
    (remO : String → Except OsError Unit) (now : Int)
    (walk : List (String × List String)) (retentionDays : Int) :
    prune_old_snapshots statO remO now walk retentionDays =
      removedSpec statO remO now walk retentionDays := by
  unfold prune_old_snapshots removedSpec
  by_cases h : retentionDays ≤ 0
  · simp [h]
  · simp only [if_neg h]
    exact pruneWalk_eq statO remO (now - retentionDays * 86400) walk

/-- C6: when every stat and removal succeeds, the pruner removes exactly the
.json.gz files other than latest.json whose mtime is strictly older than
now - retentionDays * 86400, and removes nothing when retentionDays is
nonpositive. -/
theorem prune_removes_exactly_expired (mt : String → Int) (now : Int)
    (walk : List (String × List String)) (retentionDays : Int) :
    prune_old_snapshots (fun p => Except.ok (mt p)) (fun _ => Except.ok ())
        now walk retentionDays =
      expiredSpec mt now walk retentionDays := by
  unfold prune_old_snapshots expiredSpec
  by_cases h : retentionDays ≤ 0
  · simp [h]
  · simp only [if_neg h]
    rw [pruneWalk_eq]
    simp [isExpiredOk, removeOk, Bool.and_true]

/-- C7: every snapshot main produces carries count equal to the length of
its fixture list, and the empty day (no fixtures, no odds) still yields a
snapshot with an empty list and count zero rather than an error. -/
theorem snapshot_count_eq_items_length :
    (∀ (normDate : String → String) (fixtures : List FixtureInput)
       (odds : List OddsItem) (dateYmd : String) (snap : Snapshot),
       mainSnapshot normDate fixtures odds dateYmd = Except.ok snap →
       snap.count = snap.items.length) ∧
    (∀ (normDate : String → String) (dateYmd : String),
       mainSnapshot normDate [] [] dateYmd =
         Except.ok { date := dateYmd, count := 0, items := [] }) := by
  constructor
  · intro nd fx od dy snap h
    unfold mainSnapshot at h
    cases hm : od.foldlM applyOdds
        (fx.foldl (fun d f => dictSet d f.fid (initRec nd f)) []) with
    | error e =>
      rw [hm] at h
      exact Except.noConfusion h
    | ok d =>
      rw [hm] at h
      have h' : ({ date := dy, count := (sortOrd keyLe (d.map Prod.snd)).length,
                   items := sortOrd keyLe (d.map Prod.snd) } : Snapshot) = snap :=
        Except.ok.inj h
      rw [← h']
  · intro nd dy
    rfl

/-- C7 witness: the count invariant at a one-fixture run, and the empty-day
snapshot. -/
theorem snapshot_count_eq_items_length_witness :
    ({ date := "2025-10-12", count := 1,
       items := [{ fixtureId := 1, date := "2025-10-12T15:00:00Z", status := "NS",
                   leagueId := 71, league := "Brazil Serie A",
                   home := some "Flamengo", away := some "Santos",
                   markets := [] }] } : Snapshot).count =
      ({ date := "2025-10-12", count := 1,
         items := [{ fixtureId := 1, date := "2025-10-12T15:00:00Z", status := "NS",
                     leagueId := 71, league := "Brazil Serie A",
                     home := some "Flamengo", away := some "Santos",
                     markets := [] }] } : Snapshot).items.length ∧
    mainSnapshot id [] [] "2025-10-12" =
      Except.ok { date := "2025-10-12", count := 0, items := [] } :=
  ⟨snapshot_count_eq_items_length.1 id [wFixture] [] "2025-10-12" _ rfl,
   snapshot_count_eq_items_length.2 id "2025-10-12"⟩

/-- Looking a key up after a Python dict assignment: the assigned key reads
the new value, every other key is unchanged. -/
theorem dictLookup_dictSet [BEq κ] [LawfulBEq κ] (d : List (κ × α)) (k k' : κ) (v : α) :
    dictLookup (dictSet d k v) k' = if k' == k then some v else dictLookup d k' := by
  induction d with
  | nil =>
    by_cases hk : k' = k
    · subst hk
      simp [dictSet, dictLookup, List.find?_cons]
    · have h1 : (k == k') = false := by simp [Ne.symm hk]
      have h2 : (k' == k) = false := by simp [hk]
      simp [dictSet, dictLookup, List.find?_cons, h1, h2]
  | cons kv0 rest ih =>
    obtain ⟨k0, v0⟩ := kv0
    by_cases h0 : k0 = k
    · subst h0
      have hset : dictSet ((k0, v0) :: rest) k0 v = (k0, v) :: rest := by
        simp [dictSet]
      rw [hset]
      by_cases hk : k' = k0
      · subst hk
        simp [dictLookup, List.find?_cons]
      · have h1 : (k0 == k') = false := by simp [Ne.symm hk]
        have h2 : (k' == k0) = false := by simp [hk]
        simp [dictLookup, List.find?_cons, h1, h2]
    · have h0b : (k0 == k) = false := by simp [h0]
      have hset : dictSet ((k0, v0) :: rest) k v = (k0, v0) :: dictSet rest k v := by
        simp [dictSet, h0b]
      rw [hset]
      by_cases hk : k0 = k'
      · subst hk
        have h2 : (k0 == k) = false := h0b
        simp [dictLookup, List.find?_cons, h0b]
      · have hb : (k0 == k') = false := by simp [hk]
        have hL : dictLookup ((k0, v0) :: dictSet rest k v) k' =
            dictLookup (dictSet rest k v) k' := by
          simp [dictLookup, List.find?_cons, hb]
        have hR : dictLookup ((k0, v0) :: rest) k' = dictLookup rest k' := by
          simp [dictLookup, List.find?_cons, hb]
        rw [hL, hR, ih]

/-- A key absent from the key list reads none. -/
theorem dictLookup_eq_none_of_not_mem [BEq κ] [LawfulBEq κ]
    (d : List (κ × α)) (k : κ) (h : k ∉ d.map Prod.fst) : dictLookup d k = none := by
  induction d with
  | nil => rfl
  | cons kv0 rest ih =>
    obtain ⟨k0, v0⟩ := kv0
    simp only [List.map_cons, List.mem_cons, not_or] at h
    have hb : (k0 == k) = false := by simp [Ne.symm h.1]
    have hL : dictLookup ((k0, v0) :: rest) k = dictLookup rest k := by
      simp [dictLookup, List.find?_cons, hb]
    rw [hL]
    exact ih h.2

/-- A key of the updated dict is a key of the original dict or the assigned
key. -/
theorem mem_keys_dictSet [BEq κ] [LawfulBEq κ] (d : List (κ × α)) (k : κ) (v : α)
    (x : κ) (h : x ∈ (dictSet d k v).map Prod.fst) :
    x ∈ d.map Prod.fst ∨ x = k := by
  induction d with
  | nil =>
    simp only [dictSet, List.map_cons, List.map_nil, List.mem_cons,
               List.not_mem_nil, or_false] at h
    exact Or.inr h
  | cons kv0 rest ih =>
    obtain ⟨k0, v0⟩ := kv0
    by_cases h0 : k0 = k
    · subst h0
      have hset : dictSet ((k0, v0) :: rest) k0 v = (k0, v) :: rest := by
        simp [dictSet]
      rw [hset] at h
      simp only [List.map_cons, List.mem_cons] at h
      rcases h with h | h
      · exact Or.inr h
      · exact Or.inl (by simp only [List.map_cons, List.mem_cons]; exact Or.inr h)
    · have h0b : (k0 == k) = false := by simp [h0]
      have hset : dictSet ((k0, v0) :: rest) k v = (k0, v0) :: dictSet rest k v := by
        simp [dictSet, h0b]
      rw [hset] at h
      simp only [List.map_cons, List.mem_cons] at h
      rcases h with h | h
      · exact Or.inl (by simp only [List.map_cons, List.mem_cons]; exact Or.inl h)
      · rcases ih h with h' | h'
        · exact Or.inl (by simp only [List.map_cons, List.mem_cons]; exact Or.inr h')
        · exact Or.inr h'

/-- Python dict assignment preserves key uniqueness. -/
theorem nodup_keys_dictSet [BEq κ] [LawfulBEq κ] (d : List (κ × α)) (k : κ) (v : α)
    (h : (d.map Prod.fst).Nodup) : ((dictSet d k v).map Prod.fst).Nodup := by
  induction d with
  | nil => simp [dictSet]
  | cons kv0 rest ih =>
    obtain ⟨k0, v0⟩ := kv0
    simp only [List.map_cons, List.nodup_cons] at h
    by_cases h0 : k0 = k
    · subst h0
      have hset : dictSet ((k0, v0) :: rest) k0 v = (k0, v) :: rest := by
        simp [dictSet]
      rw [hset]
      simp only [List.map_cons, List.nodup_cons]
      exact ⟨h.1, h.2⟩
    · have h0b : (k0 == k) = false := by simp [h0]
      have hset : dictSet ((k0, v0) :: rest) k v = (k0, v0) :: dictSet rest k v := by
        simp [dictSet, h0b]
      rw [hset]
      simp only [List.map_cons, List.nodup_cons]
      refine ⟨?_, ih h.2⟩
      intro hmem
      rcases mem_keys_dictSet rest k v k0 hmem with h' | h'
      · exact h.1 h'
      · exact h0 h'

/-- Folding one response's non-empty entries into a dict: a key written with
a non-empty value reads that value, every other key reads as before. -/
theorem dictLookup_updFold (m : List (String × MRecord))
    (hm : (m.map Prod.fst).Nodup) (d : List (String × MRecord)) (k : String) :
    dictLookup ((m.filter (fun kv => !kv.2.isEmpty)).foldl
        (fun d kv => dictSet d kv.1 kv.2) d) k =
      match dictLookup m k with
      | some v => if v.isEmpty then dictLookup d k else some v
      | none => dictLookup d k := by
  induction m generalizing d with
  | nil => rfl
  | cons kv0 rest ih =>
    obtain ⟨k0, v0⟩ := kv0
    simp only [List.map_cons, List.nodup_cons] at hm
    by_cases hv : v0.isEmpty = true
    · have hfil : (((k0, v0) :: rest).filter fun kv => !kv.2.isEmpty) =
          rest.filter fun kv => !kv.2.isEmpty := by
        simp [List.filter_cons, hv]
      rw [hfil, ih hm.2 d]
      by_cases hk : k0 = k
      · subst hk
        have hnone : dictLookup rest k0 = none :=
          dictLookup_eq_none_of_not_mem rest k0 hm.1
        have hcons : dictLookup ((k0, v0) :: rest) k0 = some v0 := by
          simp [dictLookup, List.find?_cons]
        rw [hnone, hcons]
        simp [hv]
      · have hb : (k0 == k) = false := by simp [hk]
        have hcons : dictLookup ((k0, v0) :: rest) k = dictLookup rest k := by
          simp [dictLookup, List.find?_cons, hb]
        rw [hcons]
    · have hfil : (((k0, v0) :: rest).filter fun kv => !kv.2.isEmpty) =
          (k0, v0) :: rest.filter fun kv => !kv.2.isEmpty := by
        simp [List.filter_cons, hv]
      rw [hfil]
      simp only [List.foldl_cons]
      rw [ih hm.2 (dictSet d k0 v0)]
      by_cases hk : k0 = k
      · subst hk
        have hnone : dictLookup rest k0 = none :=
          dictLookup_eq_none_of_not_mem rest k0 hm.1
        have hcons : dictLookup ((k0, v0) :: rest) k0 = some v0 := by
          simp [dictLookup, List.find?_cons]
        rw [hnone, hcons]
        have hsetl : dictLookup (dictSet d k0 v0) k0 = some v0 := by
          rw [dictLookup_dictSet]
          simp
        rw [hsetl]
        simp [hv]
      · have hb : (k0 == k) = false := by simp [hk]
        have hkb : (k == k0) = false := by simp [Ne.symm hk]
        have hcons : dictLookup ((k0, v0) :: rest) k = dictLookup rest k := by
          simp [dictLookup, List.find?_cons, hb]
        have hsetl : dictLookup (dictSet d k0 v0) k = dictLookup d k := by
          rw [dictLookup_dictSet]
          simp [hkb]
        rw [hcons, hsetl]

/-- Merging one response into a markets dict: a non-empty value for a key
overwrites it, an empty or absent value leaves it unchanged. -/
theorem dictLookup_mergeMarkets (m : List (String × MRecord))
    (hm : (m.map Prod.fst).Nodup) (d : List (String × MRecord)) (k : String) :
    dictLookup (mergeMarkets d m) k =
      match dictLookup m k with
      | some v => if v.isEmpty then dictLookup d k else some v
      | none => dictLookup d k := by
  by_cases h0 : m.isEmpty = true
  · have : m = [] := by
      cases m with
      | nil => rfl
      | cons a l => simp at h0
    subst this
    simp [mergeMarkets, dictLookup]
  · have hne : m.isEmpty = false := by simpa using h0
    simp only [mergeMarkets, hne, Bool.false_eq_true, if_false]
    exact dictLookup_updFold m hm d k

/-- Folding a whole response sequence: the final value of a key is the last
non-empty write, else whatever the starting dict held. -/
theorem dictLookup_mergeAll_aux (ms : List (List (String × MRecord)))
    (h : ∀ m ∈ ms, (m.map Prod.fst).Nodup) :
    ∀ (d : List (String × MRecord)) (k : String),
      dictLookup (ms.foldl mergeMarkets d) k =
        match lastNonEmptyWrite k ms with
        | some v => some v
        | none => dictLookup d k := by
  induction ms with
  | nil => intro d k; rfl
  | cons m rest ih =>
    intro d k
    simp only [List.foldl_cons]
    rw [ih (fun m' hm' => h m' (List.mem_cons_of_mem _ hm'))
        (mergeMarkets d m) k]
    rw [dictLookup_mergeMarkets m (h m (List.mem_cons_self m rest)) d k]
    cases hl : lastNonEmptyWrite k rest with
    | some v => simp [lastNonEmptyWrite, hl]
    | none =>
      simp only [lastNonEmptyWrite, hl]
      cases hmk : dictLookup m k with
      | none => simp
      | some v =>
        by_cases hv : v.isEmpty = true <;> simp [hv]

/-- The update fold preserves key uniqueness. -/
theorem nodup_keys_updFold (l : List (String × MRecord)) :
    ∀ d : List (String × MRecord), (d.map Prod.fst).Nodup →
      ((l.foldl (fun d kv => dictSet d kv.1 kv.2) d).map Prod.fst).Nodup := by
  induction l with
  | nil => intro d hd; exact hd
  | cons kv rest ih =>
    intro d hd
    simp only [List.foldl_cons]
    exact ih (dictSet d kv.1 kv.2) (nodup_keys_dictSet d kv.1 kv.2 hd)

/-- Merging a response preserves key uniqueness of the markets dict. -/
theorem nodup_keys_mergeMarkets (d m : List (String × MRecord))
    (hd : (d.map Prod.fst).Nodup) : ((mergeMarkets d m).map Prod.fst).Nodup := by
  unfold mergeMarkets
  by_cases h0 : m.isEmpty = true
  · simp [h0, hd]
  · have hne : m.isEmpty = false := by simpa using h0
    simp only [hne, Bool.false_eq_true, if_false]
    exact nodup_keys_updFold _ d hd

/-- The whole merge fold preserves key uniqueness. -/
theorem nodup_keys_mergeAll_aux (ms : List (List (String × MRecord))) :
    ∀ d : List (String × MRecord), (d.map Prod.fst).Nodup →
      ((ms.foldl mergeMarkets d).map Prod.fst).Nodup := by
  induction ms with
  | nil => intro d hd; exact hd
  | cons m rest ih =>
    intro d hd
    simp only [List.foldl_cons]
    exact ih (mergeMarkets d m) (nodup_keys_mergeMarkets d m hd)

/-- C8: merging a sequence of responses for one fixture is last-write-wins
per MarketType — a later non-empty record overwrites, a later empty or
absent one leaves the earlier entry — and the resulting markets dict never
holds two records for the same key. -/
theorem merge_last_write_wins (ms : List (List (String × MRecord)))
    (h : ∀ m ∈ ms, (m.map Prod.fst).Nodup) :
    (∀ k, dictLookup (mergeAll ms) k = lastNonEmptyWrite k ms) ∧
    ((mergeAll ms).map Prod.fst).Nodup := by
  constructor
  · intro k
    unfold mergeAll
    rw [dictLookup_mergeAll_aux ms h [] k]
    cases hl : lastNonEmptyWrite k ms <;> simp [dictLookup]
  · exact nodup_keys_mergeAll_aux ms [] (by simp)

/-- C8 witness: the characterisation at a concrete two-response sequence in
which the second response overwrites overUnder and carries an empty btts
record. -/
theorem merge_last_write_wins_witness :
    dictLookup (mergeAll c8Responses) "overUnder" =
      lastNonEmptyWrite "overUnder" c8Responses ∧
    ((mergeAll c8Responses).map Prod.fst).Nodup :=
  ⟨(merge_last_write_wins c8Responses (by decide)).1 "overUnder",
   (merge_last_write_wins c8Responses (by decide)).2⟩

/-- A member of an optional out-dict entry pins the key and the record. -/
theorem mem_optEntry (k : String) (o : Option MRecord) (kv : String × MRecord)
    (h : kv ∈ optEntry k o) : kv.1 = k ∧ o = some kv.2 := by
  cases o with
  | none => simp [optEntry] at h
  | some r =>
    simp only [optEntry, List.mem_singleton] at h
    subst h
    exact ⟨rfl, rfl⟩

/-- Shape of an emitted Match Winner record. -/
theorem mwMarket_shape (books : List Book) (mrec : MRecord)
    (h : mwMarket books = some mrec) :
    mrec.map Prod.fst = ["home", "draw", "away", "bookmaker"] ∧
    ∃ p, pickBookmaker rxMatchWinner books = some p ∧
      ("bookmaker", JVal.str p.1.name) ∈ mrec := by
  unfold mwMarket at h
  cases hp : pickBookmaker rxMatchWinner books with
  | none => rw [hp] at h; exact Option.noConfusion h
  | some p =>
    rw [hp] at h
    have h' := h
    simp only [Option.some_bind] at h'
    split at h'
    · have hrec := Option.some.inj h'
      rw [← hrec]
      exact ⟨rfl, p, rfl, by simp⟩
    · exact Option.noConfusion h'

/-- Shape of an emitted Both Teams To Score record. -/
theorem bttsMarket_shape (books : List Book) (mrec : MRecord)
    (h : bttsMarket books = some mrec) :
    mrec.map Prod.fst = ["yes", "no", "bookmaker"] ∧
    ∃ p, pickBookmaker rxBtts books = some p ∧
      ("bookmaker", JVal.str p.1.name) ∈ mrec := by
  unfold bttsMarket at h
  cases hp : pickBookmaker rxBtts books with
  | none => rw [hp] at h; exact Option.noConfusion h
  | some p =>
    rw [hp] at h
    have h' := h
    simp only [Option.some_bind] at h'
    split at h'
    · have hrec := Option.some.inj h'
      rw [← hrec]
      exact ⟨rfl, p, rfl, by simp⟩
    · exact Option.noConfusion h'

/-- Shape of an emitted Handicap record. -/
theorem hcMarket_shape (books : List Book) (mrec : MRecord)
    (h : hcMarket books = some mrec) :
    mrec.map Prod.fst = ["homeMinus1", "awayPlus1", "bookmaker"] ∧
    ∃ p, pickBookmaker rxHandicap books = some p ∧
      ("bookmaker", JVal.str p.1.name) ∈ mrec := by
  unfold hcMarket at h
  cases hp : pickBookmaker rxHandicap books with
  | none => rw [hp] at h; exact Option.noConfusion h
  | some p =>
    rw [hp] at h
    have h' := h
    simp only [Option.some_bind] at h'
    split at h'
    · have hrec := Option.some.inj h'
      rw [← hrec]
      exact ⟨rfl, p, rfl, by simp⟩
    · exact Option.noConfusion h'

/-- Shape of an emitted First Half Winner record. -/
theorem fhMarket_shape (books : List Book) (mrec : MRecord)
    (h : fhMarket books = some mrec) :
    mrec.map Prod.fst = ["home", "draw", "away", "bookmaker"] ∧
    ∃ p, pickBookmaker rxFirstHalf books = some p ∧
      ("bookmaker", JVal.str p.1.name) ∈ mrec := by
  unfold fhMarket at h
  cases hp : pickBookmaker rxFirstHalf books with
  | none => rw [hp] at h; exact Option.noConfusion h
  | some p =>
    rw [hp] at h
    have h' := h
    simp only [Option.some_bind] at h'
    split at h'
    · have hrec := Option.some.inj h'
      rw [← hrec]
      exact ⟨rfl, p, rfl, by simp⟩
    · exact Option.noConfusion h'

/-- Shape of an emitted Over/Under record. -/
theorem ouMarket_shape (books : List Book) (mrec : MRecord)
    (h : ouMarket books = Except.ok (some mrec)) :
    mrec.map Prod.fst = ["line", "over", "under", "bookmaker"] ∧
    ∃ p, pickBookmaker rxOverUnder books = some p ∧
      ("bookmaker", JVal.str p.1.name) ∈ mrec := by
  unfold ouMarket at h
  cases hp : pickBookmaker rxOverUnder books with
  | none =>
    rw [hp] at h
    exact Option.noConfusion (Except.ok.inj h)
  | some p =>
    rw [hp] at h
    have h2 : Except.map
        (fun picks => if (ovSome picks.1 || ovSome picks.2) = true then
          some (ouRecord p.1 picks.1 picks.2) else none)
        (ouPicks p.2.values) = Except.ok (some mrec) := h
    cases hpx : ouPicks p.2.values with
    | error e => rw [hpx] at h2; exact Except.noConfusion h2
    | ok picks =>
      rw [hpx] at h2
      have h' : (if (ovSome picks.1 || ovSome picks.2) = true then
          some (ouRecord p.1 picks.1 picks.2) else none) = some mrec :=
        Except.ok.inj h2
      split at h'
      · have hrec := Option.some.inj h'
        rw [← hrec]
        exact ⟨rfl, p, rfl, by simp [ouRecord]⟩
      · exact Option.noConfusion h'

/-- C10: every market record extract_markets returns sits under one of the
five fixed keys, carries exactly that key's field list (absent legs present
as null rather than omitted), and names the bookmaker that won the pick for
that key's rule in its bookmaker field. -/
theorem extract_markets_shape (books : List Book) (m : List (String × MRecord))
    (h : extract_markets books = Except.ok m) :
    ∀ kv ∈ m,
      kv.1 ∈ ["matchWinner", "overUnder", "btts", "handicap", "firstHalfWinner"] ∧
      kv.2.map Prod.fst = marketFields kv.1 ∧
      ∃ p, pickBookmaker (ruleFor kv.1) books = some p ∧
        ("bookmaker", JVal.str p.1.name) ∈ kv.2 := by
  unfold extract_markets at h
  cases hou : ouMarket books with
  | error e => rw [hou] at h; exact Except.noConfusion h
  | ok ou =>
    rw [hou] at h
    have hm : optEntry "matchWinner" (mwMarket books) ++ optEntry "overUnder" ou ++
        optEntry "btts" (bttsMarket books) ++ optEntry "handicap" (hcMarket books) ++
        optEntry "firstHalfWinner" (fhMarket books) = m := Except.ok.inj h
    intro kv hkv
    rw [← hm] at hkv
    simp only [List.mem_append] at hkv
    rcases hkv with ((((hkv | hkv) | hkv) | hkv) | hkv)
    · obtain ⟨hk, hval⟩ := mem_optEntry _ _ _ hkv
      obtain ⟨hfields, p, hp, hmem⟩ := mwMarket_shape books kv.2 hval
      refine ⟨by simp [hk], ?_, ?_⟩
      · rw [hk, hfields]
        rfl
      · rw [hk]
        exact ⟨p, hp, hmem⟩
    · obtain ⟨hk, hval⟩ := mem_optEntry _ _ _ hkv
      rw [hval] at hou
      obtain ⟨hfields, p, hp, hmem⟩ := ouMarket_shape books kv.2 hou
      refine ⟨by simp [hk], ?_, ?_⟩
      · rw [hk, hfields]
        rfl
      · rw [hk]
        exact ⟨p, hp, hmem⟩
    · obtain ⟨hk, hval⟩ := mem_optEntry _ _ _ hkv
      obtain ⟨hfields, p, hp, hmem⟩ := bttsMarket_shape books kv.2 hval
      refine ⟨by simp [hk], ?_, ?_⟩
      · rw [hk, hfields]
        rfl
      · rw [hk]
        exact ⟨p, hp, hmem⟩
    · obtain ⟨hk, hval⟩ := mem_optEntry _ _ _ hkv
      obtain ⟨hfields, p, hp, hmem⟩ := hcMarket_shape books kv.2 hval
      refine ⟨by simp [hk], ?_, ?_⟩
      · rw [hk, hfields]
        rfl
      · rw [hk]
        exact ⟨p, hp, hmem⟩
    · obtain ⟨hk, hval⟩ := mem_optEntry _ _ _ hkv
      obtain ⟨hfields, p, hp, hmem⟩ := fhMarket_shape books kv.2 hval
      refine ⟨by simp [hk], ?_, ?_⟩
      · rw [hk, hfields]
        rfl
      · rw [hk]
        exact ⟨p, hp, hmem⟩

/-- C10 witness: the record shape at a concrete Match Winner market. -/
theorem extract_markets_shape_witness :
    ("matchWinner" ∈ ["matchWinner", "overUnder", "btts", "handicap", "firstHalfWinner"] ∧
     ([("home", JVal.str "1.50"), ("draw", JVal.str "3.20"), ("away", JVal.str "6.00"),
       ("bookmaker", JVal.str "Bmk")] : MRecord).map Prod.fst = marketFields "matchWinner" ∧
     ∃ p, pickBookmaker (ruleFor "matchWinner") mwBooks = some p ∧
       ("bookmaker", JVal.str p.1.name) ∈
         ([("home", JVal.str "1.50"), ("draw", JVal.str "3.20"), ("away", JVal.str "6.00"),
           ("bookmaker", JVal.str "Bmk")] : MRecord)) :=
  extract_markets_shape mwBooks
    [("matchWinner", [("home", JVal.str "1.50"), ("draw", JVal.str "3.20"),
                      ("away", JVal.str "6.00"), ("bookmaker", JVal.str "Bmk")])]
    rfl
    ("matchWinner", [("home", JVal.str "1.50"), ("draw", JVal.str "3.20"),
                     ("away", JVal.str "6.00"), ("bookmaker", JVal.str "Bmk")])
    (by simp)

end OddsCompact
